/-
Verification of the pystate finite-state-machine library.

The model is a shallow embedding of src/pystate.py:

* A `State` object of the source (mutable Python object with `name`,
  `from_states`, `handler_func` and, after `start`, a `generator`
  attribute) is modelled by `StateObj`, and object identity by a
  `StateId` (natural number).  All state objects live in a heap
  `StateId → StateObj`, so mutation performed by the FSM methods is
  explicit state passing.
* A handler is a Python generator of the shape used throughout the
  source: optional local initialisation, then `while True: event =
  yield; <per-event body>`.  The per-event body interacts with the
  machine only through `fsm.transition_to` and `raise`; it is modelled
  by the small command language `HProg` (return with updated local
  data, raise an exception, or request a transition and continue).
  A live generator parked at its `yield` is `GenCtx.suspended body loc`;
  a generator that terminated with an uncaught exception is
  `GenCtx.dead` (a further `send` raises `StopIteration`).
* Handlers keep persistent data in two distinct places in the source:
  locals of the generator frame (initialised before the `while` loop,
  lost when the generator is recreated) and the environment captured by
  `handler_func` (the callable instance of callable_test.py, or a
  closure cell), which outlives any one generator.  The generator-local
  data is the `loc` of the suspended context (initialised from
  `Handler.geninit`); the captured environment is materialised as the
  `inst` field of the state's heap entry (initialised from
  `Handler.instInit`, i.e. the instance the caller built before
  registration), read and written on each dispatch but untouched by
  `start`.
* Python exceptions are the constructors of `PyErr`; the spec's names
  map to the exceptions the source actually raises:
  ConfigurationError ↦ ValueError, TypeConfigurationError ↦ TypeError,
  DuplicateStateError ↦ KeyError, MultipleInitialStatesError ↦
  RuntimeError, NoInitialStateError ↦ RuntimeError, and
  InvalidStateTransitionError ↦ InvalidStateTransition.  FsmExit is the
  orderly-exit signal.  Every operation returns `Option PyErr × Fsm`:
  the raised exception (if any) together with the machine as mutated by
  the call up to the raise.
-/
import Mathlib

/-- Identity of a Python `State` object. -/
abbrev StateId := Nat

/-- The Python exceptions raised by the source (plus the ambient ones a
misuse of the untyped code produces). -/
inductive PyErr where
  | invalidStateTransition
  | fsmExit
  | valueError
  | typeError
  | keyError
  | runtimeError
  | stopIteration
  | attributeError
  deriving DecidableEq, Repr

/-- The per-event body of a state handler, as a command program: it can
finish the iteration (carrying its updated local data), raise an
exception (which also kills the generator), or call
`fsm.transition_to` and continue.  This is exactly the interface the
source's handlers use on the machine. -/
inductive HProg (α : Type) where
  | ret (a : α)
  | raiseE (e : PyErr)
  | transition (t : StateId) (k : HProg α)

/-- Map over the value a handler body returns. -/
def HProg.map {α β : Type} (g : α → β) : HProg α → HProg β
  | .ret a => .ret (g a)
  | .raiseE e => .raiseE e
  | .transition t k => .transition t (k.map g)

/-- A handler as registered with `add_state`: `instInit` is the
environment captured by `handler_func` (callable-instance fields or
closure cells, built by the caller before registration), `geninit` is
the generator-local data established by the code before the `while`
loop, and `body` is the per-event code, taking the event, the
generator-local data and the captured environment. -/
structure Handler (σ E : Type) where
  instInit : σ
  geninit : σ
  body : E → σ → σ → HProg (σ × σ)

/-- A generator created by `start`: suspended at its `yield` with its
body and current generator-local data, or dead after an uncaught
exception. -/
inductive GenCtx (σ E : Type) where
  | suspended (body : E → σ → σ → HProg (σ × σ)) (loc : σ)
  | dead

/-- A Python `State` object (source `State.__init__`): a name, the
`from_states` tuple (empty until `add_state` assigns it), the
registered handler (`None` until `add_state`), the captured handler
environment, and the generator attribute (`none` until `start`). -/
structure StateObj (σ E : Type) where
  name : String
  from_states : List StateId
  handler : Option (Handler σ E)
  inst : σ
  gen : Option (GenCtx σ E)

/-- The `FiniteStateMachine` together with the heap of all `State`
objects in existence; `states` is the registry dict as an association
list in insertion order. -/
structure Fsm (σ E : Type) where
  heap : StateId → StateObj σ E
  states : List (String × StateId)
  initial_state : Option StateId
  current_state : Option StateId

/-- An entry of the `from_states` argument: a `State` object or some
non-`State` value (for the `isinstance` check of `add_state`). -/
inductive FromEntry where
  | st (i : StateId)
  | nonState
  deriving DecidableEq, Repr

/-- Whether a `from_states` entry is a `State`. -/
def FromEntry.isSt : FromEntry → Bool
  | .st _ => true
  | .nonState => false

/-- The state ids of a `from_states` tuple (defined when all entries
are `State`s). -/
def fromIds (l : List FromEntry) : List StateId :=
  l.filterMap fun e => match e with | .st i => some i | .nonState => none

/-- A fresh `FiniteStateMachine` (source `__init__`: empty registry, no
initial or current state), over a world where every state object `i`
has been constructed as `State(names i)`: empty `from_states`, no
handler, no generator. -/
def Fsm.init {σ E : Type} [Inhabited σ] (names : StateId → String) : Fsm σ E :=
  { heap := fun i =>
      { name := names i, from_states := [], handler := none,
        inst := default, gen := none }
    states := []
    initial_state := none
    current_state := none }

/-- Source `FiniteStateMachine.add_state` (lines 131-153): four checks
in source order — a non-initial state needs at least one `from_states`
entry (ValueError), every entry must be a `State` (TypeError), the name
must be new (KeyError, "State already exists in FSM."), and at most one
initial state (RuntimeError) — then registers the state, assigns its
`from_states` and handler (which brings its captured environment), and
for the initial state sets both `initial_state` and `current_state`. -/
def Fsm.add_state {σ E : Type} (fsm : Fsm σ E) (state : StateId)
    (from_states : List FromEntry) (handler_func : Option (Handler σ E))
    (initial : Bool) : Option PyErr × Fsm σ E :=
  if initial = false ∧ from_states = [] then (some .valueError, fsm)
  else if ¬ from_states.all FromEntry.isSt = true then (some .typeError, fsm)
  else if (fsm.states.lookup (fsm.heap state).name).isSome = true then
    (some .keyError, fsm)
  else if initial = true ∧ fsm.initial_state.isSome = true then
    (some .runtimeError, fsm)
  else
    let fsm1 : Fsm σ E :=
      { fsm with
        states := fsm.states ++ [((fsm.heap state).name, state)]
        heap := fun j =>
          if j = state then
            { fsm.heap j with
              from_states := fromIds from_states
              handler := handler_func
              inst := match handler_func with
                      | some h => h.instInit
                      | none => (fsm.heap j).inst }
          else fsm.heap j }
    if initial = true then
      (none, { fsm1 with initial_state := some state, current_state := some state })
    else (none, fsm1)

/-- Source `FiniteStateMachine.transition_to` (lines 155-162): raises
`InvalidStateTransition` unless the current state is a member of the
target's `from_states` tuple, otherwise sets `current_state` to the
target.  (A fresh machine has `current_state = None`, which is never a
member of a tuple of `State`s.) -/
def Fsm.transition_to {σ E : Type} (fsm : Fsm σ E) (to_state : StateId) :
    Option PyErr × Fsm σ E :=
  match fsm.current_state with
  | some c =>
      if c ∈ (fsm.heap to_state).from_states then
        (none, { fsm with current_state := some to_state })
      else (some .invalidStateTransition, fsm)
  | none => (some .invalidStateTransition, fsm)

/-- Overwrite the generator attribute of one state object. -/
def Fsm.setGen {σ E : Type} (fsm : Fsm σ E) (s : StateId)
    (g : Option (GenCtx σ E)) : Fsm σ E :=
  { fsm with
    heap := fun j => if j = s then { fsm.heap j with gen := g } else fsm.heap j }

/-- Overwrite the generator attribute and the captured handler
environment of one state object (what `send` leaves behind after a
successful iteration). -/
def Fsm.setGenInst {σ E : Type} (fsm : Fsm σ E) (s : StateId)
    (g : Option (GenCtx σ E)) (v : σ) : Fsm σ E :=
  { fsm with
    heap := fun j =>
      if j = s then { fsm.heap j with gen := g, inst := v } else fsm.heap j }

/-- Run one handler-body program against the machine: each
`transition` step is a call of `fsm.transition_to`; a failed transition
raises through the body (the source handlers do not catch it). -/
def Fsm.runProg {σ E α : Type} : Fsm σ E → HProg α → Except PyErr α × Fsm σ E
  | fsm, .ret a => (.ok a, fsm)
  | fsm, .raiseE e => (.error e, fsm)
  | fsm, .transition t k =>
      match fsm.transition_to t with
      | (none, fsm') => Fsm.runProg fsm' k
      | (some e, fsm') => (.error e, fsm')

/-- The loop body of source `start` (lines 172-174): for each registered
state in insertion order, `state.generator = state.handler_func(self);
next(state.generator)` — calling a `None` handler raises TypeError and
aborts the loop there. -/
def Fsm.primeList {σ E : Type} : Fsm σ E → List (String × StateId) →
    Option PyErr × Fsm σ E
  | fsm, [] => (none, fsm)
  | fsm, (_, s) :: rest =>
      match (fsm.heap s).handler with
      | none => (some .typeError, fsm)
      | some h =>
          Fsm.primeList (fsm.setGen s (some (.suspended h.body h.geninit))) rest

/-- Source `FiniteStateMachine.start` (lines 165-174): RuntimeError if
no initial state was declared; otherwise set `current_state` to the
initial state and create and prime a fresh generator for every
registered state. -/
def Fsm.start {σ E : Type} (fsm : Fsm σ E) : Option PyErr × Fsm σ E :=
  match fsm.initial_state with
  | none => (some .runtimeError, fsm)
  | some _ =>
      let fsm1 := { fsm with current_state := fsm.initial_state }
      Fsm.primeList fsm1 fsm1.states

/-- Source `FiniteStateMachine.dispatch_event` (lines 176-181):
`self.states[self.current_state.name].generator.send(event)`.  The
target generator is the one of the state current at entry; `send` runs
its body (which may transition the machine), then either parks it at
its `yield` again with its updated locals and environment, or — when the
body raised — lets the exception propagate and leaves the generator
dead. -/
def Fsm.dispatch_event {σ E : Type} (fsm : Fsm σ E) (event : E) :
    Option PyErr × Fsm σ E :=
  match fsm.current_state with
  | none => (some .attributeError, fsm)
  | some cur =>
      match fsm.states.lookup (fsm.heap cur).name with
      | none => (some .keyError, fsm)
      | some sid =>
          match (fsm.heap sid).gen with
          | none => (some .attributeError, fsm)
          | some .dead => (some .stopIteration, fsm)
          | some (.suspended body loc) =>
              match Fsm.runProg fsm (body event loc (fsm.heap sid).inst) with
              | (.ok gi, fsm') =>
                  (none, fsm'.setGenInst sid (some (.suspended body gi.1)) gi.2)
              | (.error e, fsm') => (some e, fsm'.setGen sid (some .dead))

/-- The driver loop of the test programs: dispatch the events in order,
stopping at the first exception. -/
def Fsm.runEvents {σ E : Type} : Fsm σ E → List E → Option PyErr × Fsm σ E
  | fsm, [] => (none, fsm)
  | fsm, e :: rest =>
      match fsm.dispatch_event e with
      | (none, fsm') => Fsm.runEvents fsm' rest
      | (some err, fsm') => (some err, fsm')

/-- Source `state_handler` decorator (lines 185-191): wraps a per-event
function `f` into the generator boilerplate `while True: event = yield;
f(*args, event=event)`.  The wrapper generator has no locals of its
own; `f` works on the environment `inst0` captured at registration (the
callable instance, or nothing for a plain function). -/
def state_handler {σ E : Type} (f : E → σ → HProg σ) (inst0 : σ) :
    Handler σ E :=
  { instInit := inst0
    geninit := inst0
    body := fun ev g i => (f ev i).map fun j => (g, j) }

/-- Lift a plain per-event function (one taking only the fsm and the
event, keeping no data of its own) into the per-event form. -/
def liftPlain {σ E : Type} (f : E → HProg PUnit) : E → σ → HProg σ :=
  fun ev i => (f ev).map fun _ => i

/-- Modelled from the spec (§4.5, style 1; the shape of
`state_unlocked_handler` in turnstile_test.py): a hand-written
resumable computation whose explicit `while True: event = yield` loop
calls the plain per-event function `f` on each received event. -/
def handWrittenLoop {σ E : Type} (f : E → HProg PUnit) (g0 : σ) :
    Handler σ E :=
  { instInit := g0
    geninit := g0
    body := fun ev g i => (f ev).map fun _ => (g, i) }

/-- The machines obtainable from a fresh `FiniteStateMachine` over a
fresh world of `State(name)` objects by any sequence of public-interface
calls with any arguments: registration, startup, a transition request
(as a handler makes), and event dispatch (which runs the current
handler, itself free to request any transitions). -/
inductive FsmReachable {σ E : Type} [Inhabited σ] (names : StateId → String) :
    Fsm σ E → Prop where
  | init : FsmReachable names (Fsm.init names)
  | add_state (f : Fsm σ E) (s : StateId) (fr : List FromEntry)
      (hf : Option (Handler σ E)) (ini : Bool) :
      FsmReachable names f → FsmReachable names (f.add_state s fr hf ini).2
  | start (f : Fsm σ E) : FsmReachable names f → FsmReachable names (f.start).2
  | transition (f : Fsm σ E) (t : StateId) :
      FsmReachable names f → FsmReachable names (f.transition_to t).2
  | dispatch (f : Fsm σ E) (e : E) :
      FsmReachable names f → FsmReachable names (f.dispatch_event e).2

/-- The machine's registry invariant: registered entries carry their
object's name, registered names are distinct, any state object with a
non-empty `from_states` tuple has been registered (only `add_state`
assigns `from_states`), and the current and initial states, when set,
are registered under their own name. -/
structure FsmInv {σ E : Type} (fsm : Fsm σ E) : Prop where
  regName : ∀ p ∈ fsm.states, (fsm.heap p.2).name = p.1
  regNodup : (fsm.states.map Prod.fst).Nodup
  fromReg : ∀ t, (fsm.heap t).from_states ≠ [] → ∃ n, (n, t) ∈ fsm.states
  curReg : ∀ c, fsm.current_state = some c →
    ((fsm.heap c).name, c) ∈ fsm.states
  initReg : ∀ i, fsm.initial_state = some i →
    ((fsm.heap i).name, i) ∈ fsm.states

/-- Names of the two turnstile states (turnstile_test.py lines 14-15):
id 0 is STATE_LOCKED, id 1 is STATE_UNLOCKED. -/
def namesT : StateId → String :=
  fun i => if i = 0 then "STATE_LOCKED" else "STATE_UNLOCKED"

/-- The per-event body of `state_locked_handler` (turnstile_test.py
lines 19-27, decorated with `state_handler`): COIN transitions to
STATE_UNLOCKED; CUST_PASSED and unrecognized events only print. -/
def lockedF : String → Unit → HProg Unit := fun ev _ =>
  if ev = "COIN" then .transition 1 (.ret ())
  else if ev = "CUST_PASSED" then .ret ()
  else .ret ()

/-- `state_unlocked_handler` (turnstile_test.py lines 31-41), written
by hand as a generator: CUST_PASSED transitions to STATE_LOCKED; COIN
and unrecognized events only print. -/
def unlockedH : Handler Unit String :=
  { instInit := ()
    geninit := ()
    body := fun ev g i =>
      if ev = "CUST_PASSED" then .transition 0 (.ret (g, i))
      else if ev = "COIN" then .ret (g, i)
      else .ret (g, i) }

/-- The turnstile machine as registered (turnstile_test.py lines
45-47): STATE_LOCKED is initial with from_states (STATE_UNLOCKED),
STATE_UNLOCKED has from_states (STATE_LOCKED). -/
def fsmT0 : Fsm Unit String :=
  (((Fsm.init namesT).add_state 0 [.st 1] (some (state_handler lockedF ()))
      true).2.add_state 1 [.st 0] (some unlockedH) false).2

/-- The turnstile machine after `fsm.start()`. -/
def fsmT : Fsm Unit String := (fsmT0.start).2

/-- The event list of turnstile_test.py line 44. -/
def turnEvents : List String :=
  ["COIN", "CUST_PASSED", "COIN", "COIN", "CUST_PASSED", "CUST_PASSED"]

/-- A per-event function keeping a counter in its captured environment
(the callable-instance style of callable_test.py): INC increments the
instance counter, anything else is ignored. -/
def counterF : String → Nat → HProg Nat := fun ev i =>
  if ev = "INC" then .ret (i + 1) else .ret i

/-- The counter handler: a callable instance whose counter starts at 0,
decorated with `state_handler` (as `StateA.__call__` in
callable_test.py). -/
def counterH : Handler Nat String := state_handler counterF 0

/-- A one-state machine with the counter handler registered initial. -/
def fsmC0 : Fsm Nat String :=
  ((Fsm.init fun _ => "STATE_A").add_state 0 [] (some counterH) true).2

/-- The counter machine after `start()` and one INC dispatch: the
instance counter is 1. -/
def fsmC1 : Fsm Nat String := ((fsmC0.start).2.dispatch_event "INC").2

/-- The counter machine after a second `start()`. -/
def fsmC2 : Fsm Nat String := (fsmC1.start).2

/-- A handler raising the orderly-exit signal `FsmExit` on the END
event (as `state_c_handler` in pystate.py's demo). -/
def exitH : Handler Unit String :=
  { instInit := ()
    geninit := ()
    body := fun ev g i =>
      if ev = "END" then .raiseE .fsmExit else .ret (g, i) }

/-- A started one-state machine with the exiting handler. -/
def fsmX : Fsm Unit String :=
  ((((Fsm.init fun _ => "STATE_E").add_state 0 [] (some exitH)
      true).2).start).2

/-- A machine where only the initial state has been registered. -/
def fsmW : Fsm Unit String :=
  ((Fsm.init fun _ => "S").add_state 0 [] none true).2

/-- A fresh machine with no registered states. -/
def fsmE : Fsm Unit String := Fsm.init fun _ => "X"

/-- Claim C1: while the current state is X, `transition_to(Y)` succeeds
and sets `current_state` to Y exactly when X is a member of Y's
`from_states`; otherwise it raises `InvalidStateTransition` and leaves
the machine (in particular `current_state`) unchanged. -/
theorem transition_to_spec {σ E : Type} (fsm : Fsm σ E) (X Y : StateId)
    (h : fsm.current_state = some X) :
    (X ∈ (fsm.heap Y).from_states →
      fsm.transition_to Y = (none, { fsm with current_state := some Y }))
    ∧ (X ∉ (fsm.heap Y).from_states →
      fsm.transition_to Y = (some .invalidStateTransition, fsm)) := by
  unfold Fsm.transition_to
  rw [h]
  constructor <;> intro hm <;> simp [hm]

/-- Witness for C1 on the started turnstile machine (current state
STATE_LOCKED): the transition to STATE_UNLOCKED succeeds, the
transition to STATE_LOCKED itself is rejected with the machine
unchanged. -/
theorem transition_to_spec_witness :
    fsmT.transition_to 1 = (none, { fsmT with current_state := some 1 })
    ∧ fsmT.transition_to 0 = (some .invalidStateTransition, fsmT) :=
  ⟨(transition_to_spec fsmT 0 1 rfl).1 (by decide),
   (transition_to_spec fsmT 0 0 rfl).2 (by decide)⟩

/-- Claim C5: from STATE_LOCKED, dispatching COIN, CUST_PASSED, COIN,
COIN, CUST_PASSED, CUST_PASSED produces the state trace LOCKED,
UNLOCKED, LOCKED, UNLOCKED, UNLOCKED, LOCKED, LOCKED with no exception
raised. -/
theorem turnstile_trace :
    fsmT.current_state = some 0
    ∧ (fsmT.runEvents (turnEvents.take 1)).2.current_state = some 1
    ∧ (fsmT.runEvents (turnEvents.take 2)).2.current_state = some 0
    ∧ (fsmT.runEvents (turnEvents.take 3)).2.current_state = some 1
    ∧ (fsmT.runEvents (turnEvents.take 4)).2.current_state = some 1
    ∧ (fsmT.runEvents (turnEvents.take 5)).2.current_state = some 0
    ∧ (fsmT.runEvents turnEvents).2.current_state = some 0
    ∧ (fsmT.runEvents turnEvents).1 = none := by
  decide

/-- Claim C6: whatever exception the current state's handler raises
while processing an event — the orderly-exit signal `FsmExit`
included — leaves `dispatch_event` unchanged as the call's result: the
FSM layer catches nothing. -/
theorem dispatch_propagates {σ E : Type} (fsm : Fsm σ E) (ev : E)
    (cur : StateId) (body : E → σ → σ → HProg (σ × σ)) (loc : σ)
    (h1 : fsm.current_state = some cur)
    (h2 : fsm.states.lookup (fsm.heap cur).name = some cur)
    (h3 : (fsm.heap cur).gen = some (GenCtx.suspended body loc)) :
    (fsm.dispatch_event ev).1 =
      match (Fsm.runProg fsm (body ev loc (fsm.heap cur).inst)).1 with
      | .ok _ => none
      | .error e => some e := by
  simp only [Fsm.dispatch_event, h1, h2, h3]
  rcases hr : Fsm.runProg fsm (body ev loc (fsm.heap cur).inst) with ⟨r, f2⟩
  cases r <;> simp [hr]

/-- Witness for C6: on the exit machine, dispatching END propagates the
orderly-exit signal out of `dispatch_event`. -/
theorem dispatch_propagates_witness :
    (fsmX.dispatch_event "END").1 = some PyErr.fsmExit := by
  rw [dispatch_propagates fsmX "END" 0 exitH.body () rfl rfl rfl]
  decide

/-- A transition request can only change `current_state`: the heap, the
registry and the initial state are untouched. -/
theorem transition_to_frame {σ E : Type} (fsm : Fsm σ E) (t : StateId) :
    ((fsm.transition_to t).2).heap = fsm.heap
    ∧ ((fsm.transition_to t).2).states = fsm.states
    ∧ ((fsm.transition_to t).2).initial_state = fsm.initial_state := by
  unfold Fsm.transition_to
  cases hc : fsm.current_state with
  | none => simp
  | some c =>
    by_cases hm : c ∈ (fsm.heap t).from_states <;> simp [hm]

/-- Running a handler body can only change `current_state` (its FSM
effects are transition requests): heap, registry and initial state are
untouched. -/
theorem runProg_frame {σ E α : Type} (p : HProg α) (fsm : Fsm σ E) :
    ((Fsm.runProg fsm p).2).heap = fsm.heap
    ∧ ((Fsm.runProg fsm p).2).states = fsm.states
    ∧ ((Fsm.runProg fsm p).2).initial_state = fsm.initial_state := by
  induction p generalizing fsm with
  | ret a => simp [Fsm.runProg]
  | raiseE e => simp [Fsm.runProg]
  | transition t k ih =>
    have hf := transition_to_frame fsm t
    unfold Fsm.runProg
    rcases ht : fsm.transition_to t with ⟨r, f2⟩
    rw [ht] at hf
    cases r with
    | none =>
      have := ih f2
      simp only at hf ⊢
      exact ⟨by rw [this.1, hf.1], by rw [this.2.1, hf.2.1],
             by rw [this.2.2, hf.2.2]⟩
    | some e => exact hf

/-- `setGen` leaves every other state object unchanged. -/
theorem setGen_heap_ne {σ E : Type} (fsm : Fsm σ E) (s j : StateId)
    (g : Option (GenCtx σ E)) (h : j ≠ s) :
    ((fsm.setGen s g).heap j) = fsm.heap j := by
  simp [Fsm.setGen, h]

/-- `setGenInst` leaves every other state object unchanged. -/
theorem setGenInst_heap_ne {σ E : Type} (fsm : Fsm σ E) (s j : StateId)
    (g : Option (GenCtx σ E)) (v : σ) (h : j ≠ s) :
    ((fsm.setGenInst s g v).heap j) = fsm.heap j := by
  simp [Fsm.setGenInst, h]

/-- Claim C2: a dispatch call delivers its event to exactly the handler
generator of the state current at the moment of dispatch (`body`,
with its parked local data), running it to its next suspension or
death; whatever transitions that handler performs are visible only in
`current_state` afterwards, while the state objects of every other
state — their generators included — are exactly as before, so no other
handler receives the event and the delivery itself is unaffected by
the transition. -/
theorem dispatch_targets_current {σ E : Type} (fsm : Fsm σ E) (ev : E)
    (cur : StateId) (body : E → σ → σ → HProg (σ × σ)) (loc : σ)
    (h1 : fsm.current_state = some cur)
    (h2 : fsm.states.lookup (fsm.heap cur).name = some cur)
    (h3 : (fsm.heap cur).gen = some (GenCtx.suspended body loc)) :
    (fsm.dispatch_event ev =
      match Fsm.runProg fsm (body ev loc (fsm.heap cur).inst) with
      | (.ok gi, fsm') =>
          (none, fsm'.setGenInst cur (some (.suspended body gi.1)) gi.2)
      | (.error e, fsm') => (some e, fsm'.setGen cur (some .dead)))
    ∧ ∀ j, j ≠ cur → ((fsm.dispatch_event ev).2.heap j) = fsm.heap j := by
  have hmain : fsm.dispatch_event ev =
      match Fsm.runProg fsm (body ev loc (fsm.heap cur).inst) with
      | (.ok gi, fsm') =>
          (none, fsm'.setGenInst cur (some (.suspended body gi.1)) gi.2)
      | (.error e, fsm') => (some e, fsm'.setGen cur (some .dead)) := by
    simp only [Fsm.dispatch_event, h1, h2, h3]
  refine ⟨hmain, ?_⟩
  intro j hj
  have hframe := runProg_frame (body ev loc (fsm.heap cur).inst) fsm
  rw [hmain]
  rcases hr : Fsm.runProg fsm (body ev loc (fsm.heap cur).inst) with ⟨r, f2⟩
  rw [hr] at hframe
  cases r with
  | ok gi =>
    simp only
    rw [setGenInst_heap_ne f2 cur j _ _ hj, hframe.1]
  | error e =>
    simp only
    rw [setGen_heap_ne f2 cur j _ hj, hframe.1]

/-- Witness for C2 on the started turnstile: dispatching COIN while
LOCKED succeeds, and leaves STATE_UNLOCKED's object (its parked
generator included) exactly as it was. -/
theorem dispatch_targets_current_witness :
    (fsmT.dispatch_event "COIN").2.heap 1 = fsmT.heap 1
    ∧ (fsmT.dispatch_event "COIN").1 = none := by
  have h := dispatch_targets_current fsmT "COIN" 0
    ((state_handler lockedF ()).body) () rfl rfl rfl
  refine ⟨h.2 1 (by decide), ?_⟩
  rw [h.1]
  decide

/-- Claim C7: a dispatched event is processed by the same generator the
state has owned since `start` — afterwards the state is parked on the
very same `body` (the context is reused, never recreated per event)
with the local data the body computed from its previous data, its
captured environment is updated in place, and every other state's
object (generator and environment) is untouched, so per-state handler
data persists across dispatches and is independent between states. -/
theorem handler_context_reused {σ E : Type} (fsm : Fsm σ E) (ev : E)
    (cur : StateId) (body : E → σ → σ → HProg (σ × σ)) (loc : σ)
    (gi : σ × σ) (f2 : Fsm σ E)
    (h1 : fsm.current_state = some cur)
    (h2 : fsm.states.lookup (fsm.heap cur).name = some cur)
    (h3 : (fsm.heap cur).gen = some (GenCtx.suspended body loc))
    (hrun : Fsm.runProg fsm (body ev loc (fsm.heap cur).inst) = (.ok gi, f2)) :
    ((fsm.dispatch_event ev).2.heap cur).gen =
      some (GenCtx.suspended body gi.1)
    ∧ ((fsm.dispatch_event ev).2.heap cur).inst = gi.2
    ∧ ∀ j, j ≠ cur → (fsm.dispatch_event ev).2.heap j = fsm.heap j := by
  have hmain : fsm.dispatch_event ev =
      (none, f2.setGenInst cur (some (.suspended body gi.1)) gi.2) := by
    simp only [Fsm.dispatch_event, h1, h2, h3, hrun]
  have hframe := runProg_frame (body ev loc (fsm.heap cur).inst) fsm
  rw [hrun] at hframe
  refine ⟨?_, ?_, ?_⟩
  · rw [hmain]
    simp [Fsm.setGenInst]
  · rw [hmain]
    simp [Fsm.setGenInst]
  · intro j hj
    rw [hmain]
    simp only
    rw [setGenInst_heap_ne f2 cur j _ _ hj, hframe.1]

/-- Witness for C7 on the started turnstile: after dispatching COIN the
LOCKED state is parked on the same decorated body with its data, and
STATE_UNLOCKED's object is untouched. -/
theorem handler_context_reused_witness :
    ((fsmT.dispatch_event "COIN").2.heap 0).gen =
      some (GenCtx.suspended (state_handler lockedF ()).body ())
    ∧ ((fsmT.dispatch_event "COIN").2.heap 0).inst = ()
    ∧ (fsmT.dispatch_event "COIN").2.heap 1 = fsmT.heap 1 := by
  have h := handler_context_reused fsmT "COIN" 0
    ((state_handler lockedF ()).body) () ((), ())
    { fsmT with current_state := some 1 } rfl rfl rfl rfl
  exact ⟨h.1, h.2.1, h.2.2 1 (by decide)⟩

/-- `setGen` changes nothing but the generator attribute of its target:
name, `from_states`, handler and environment of every object are
kept. -/
theorem setGen_fields {σ E : Type} (fsm : Fsm σ E) (s : StateId)
    (g : Option (GenCtx σ E)) (j : StateId) :
    ((fsm.setGen s g).heap j).name = (fsm.heap j).name
    ∧ ((fsm.setGen s g).heap j).from_states = (fsm.heap j).from_states
    ∧ ((fsm.setGen s g).heap j).handler = (fsm.heap j).handler
    ∧ ((fsm.setGen s g).heap j).inst = (fsm.heap j).inst := by
  by_cases h : j = s <;> simp [Fsm.setGen, h]

/-- The priming loop of `start` changes nothing but generator
attributes: registry, initial and current state, and every object's
name, `from_states`, handler and environment are kept. -/
theorem primeList_frame {σ E : Type} (L : List (String × StateId))
    (fsm : Fsm σ E) :
    ((Fsm.primeList fsm L).2).states = fsm.states
    ∧ ((Fsm.primeList fsm L).2).current_state = fsm.current_state
    ∧ ((Fsm.primeList fsm L).2).initial_state = fsm.initial_state
    ∧ ∀ j, (((Fsm.primeList fsm L).2).heap j).name = (fsm.heap j).name
      ∧ (((Fsm.primeList fsm L).2).heap j).from_states =
          (fsm.heap j).from_states
      ∧ (((Fsm.primeList fsm L).2).heap j).handler = (fsm.heap j).handler
      ∧ (((Fsm.primeList fsm L).2).heap j).inst = (fsm.heap j).inst := by
  induction L generalizing fsm with
  | nil => simp [Fsm.primeList]
  | cons p rest ih =>
    rcases p with ⟨n, s⟩
    unfold Fsm.primeList
    cases hh : (fsm.heap s).handler with
    | none => simp
    | some h =>
      simp only
      have hr := ih (fsm.setGen s (some (.suspended h.body h.geninit)))
      have hsg := fun j =>
        setGen_fields fsm s (some (GenCtx.suspended h.body h.geninit)) j
      refine ⟨hr.1.trans rfl, hr.2.1.trans rfl, hr.2.2.1.trans rfl, ?_⟩
      intro j
      exact ⟨hr.2.2.2 j |>.1.trans (hsg j).1,
             (hr.2.2.2 j).2.1.trans (hsg j).2.1,
             (hr.2.2.2 j).2.2.1.trans (hsg j).2.2.1,
             (hr.2.2.2 j).2.2.2.trans (hsg j).2.2.2⟩

/-- When every state in the list has a handler, the priming loop
succeeds, and afterwards each listed state holds a freshly created
generator parked at its first `yield` with its initial local data;
generators of unlisted states are untouched. -/
theorem primeList_ok {σ E : Type} (L : List (String × StateId))
    (fsm : Fsm σ E)
    (hh : ∀ p ∈ L, ((fsm.heap p.2).handler).isSome = true) :
    (Fsm.primeList fsm L).1 = none
    ∧ ∀ s, ((Fsm.primeList fsm L).2.heap s).gen =
        if s ∈ L.map Prod.snd then
          ((fsm.heap s).handler).map fun h => GenCtx.suspended h.body h.geninit
        else (fsm.heap s).gen := by
  induction L generalizing fsm with
  | nil => simp [Fsm.primeList]
  | cons p rest ih =>
    rcases p with ⟨n, s⟩
    have hhead : ((fsm.heap s).handler).isSome = true := hh (n, s) (by simp)
    rcases hsome : (fsm.heap s).handler with _ | h
    · rw [hsome] at hhead; simp at hhead
    unfold Fsm.primeList
    rw [hsome]
    simp only
    have hpres := fun j =>
      setGen_fields fsm s (some (GenCtx.suspended h.body h.geninit)) j
    have hh1 : ∀ p ∈ rest,
        (((fsm.setGen s (some (GenCtx.suspended h.body h.geninit))).heap
          p.2).handler).isSome = true := by
      intro q hq
      rw [(hpres q.2).2.2.1]
      exact hh q (by simp [hq])
    obtain ⟨hok, hgen⟩ :=
      ih (fsm.setGen s (some (GenCtx.suspended h.body h.geninit))) hh1
    refine ⟨hok, ?_⟩
    intro s'
    rw [hgen s']
    by_cases hmem : s' ∈ rest.map Prod.snd
    · rw [if_pos hmem, (hpres s').2.2.1]
      simp [hmem]
    · by_cases hes : s' = s
      · subst hes
        rw [if_neg hmem]
        have hv : ((fsm.setGen s'
            (some (GenCtx.suspended h.body h.geninit))).heap s').gen =
            some (GenCtx.suspended h.body h.geninit) := by
          simp [Fsm.setGen]
        rw [hv]
        simp [hsome]
      · rw [if_neg hmem]
        have hv : ((fsm.setGen s
            (some (GenCtx.suspended h.body h.geninit))).heap s').gen =
            (fsm.heap s').gen := by
          simp [Fsm.setGen, hes]
        rw [hv]
        have hnm : ¬ s' ∈ (s :: rest.map Prod.snd) := by
          simp [hes, hmem]
        simp [hnm]

/-- Claim C3: `start()` on a machine with no declared initial state
raises RuntimeError (the spec's NoInitialStateError) and changes
nothing; on a machine whose registered states all carry handlers it
succeeds, sets `current_state` to the initial state, and creates and
primes the generator of every registered state up front — each parked
at its first `yield` with its initial local data — not lazily on first
dispatch. -/
theorem start_spec {σ E : Type} (fsm : Fsm σ E) :
    (fsm.initial_state = none → fsm.start = (some .runtimeError, fsm))
    ∧ ∀ i, fsm.initial_state = some i →
        (∀ p ∈ fsm.states, ((fsm.heap p.2).handler).isSome = true) →
        (fsm.start).1 = none
        ∧ (fsm.start).2.current_state = some i
        ∧ (fsm.start).2.initial_state = some i
        ∧ ∀ p ∈ fsm.states, ((fsm.start).2.heap p.2).gen =
            ((fsm.heap p.2).handler).map
              fun h => GenCtx.suspended h.body h.geninit := by
  constructor
  · intro h
    simp only [Fsm.start, h]
  · intro i hi hh
    simp only [Fsm.start, hi]
    have hOK := primeList_ok fsm.states
      { heap := fsm.heap, states := fsm.states,
        initial_state := some i, current_state := some i } hh
    have hFr := primeList_frame fsm.states
      { heap := fsm.heap, states := fsm.states,
        initial_state := some i, current_state := some i }
    refine ⟨hOK.1, hFr.2.1, hFr.2.2.1, ?_⟩
    intro p hp
    rw [hOK.2 p.2]
    have hm : p.2 ∈ fsm.states.map Prod.snd := List.mem_map_of_mem Prod.snd hp
    simp [hm]

/-- Witness for C3: the empty machine's `start` fails with
RuntimeError; the registered turnstile's `start` succeeds with
STATE_LOCKED current. -/
theorem start_spec_witness :
    fsmE.start = (some PyErr.runtimeError, fsmE)
    ∧ (fsmT0.start).1 = none
    ∧ (fsmT0.start).2.current_state = some 0 :=
  ⟨(start_spec fsmE).1 rfl,
   ((start_spec fsmT0).2 0 rfl (by decide)).1,
   ((start_spec fsmT0).2 0 rfl (by decide)).2.1⟩

/-- Claim C10 (amended): a second `start()` is neither rejected nor a
no-op — it succeeds, resets `current_state` to the initial state, and
replaces every registered state's generator with a freshly created,
freshly primed one, discarding the generator-local data (locals
initialised before the suspend loop); but the environment captured by
the handler (a callable instance or closure cell, created before
registration) is reused by the new generator, so data kept there
survives the restart. -/
theorem start_restart {σ E : Type} (fsm : Fsm σ E) (i : StateId)
    (h1 : fsm.initial_state = some i)
    (h2 : ∀ p ∈ fsm.states, ((fsm.heap p.2).handler).isSome = true) :
    (fsm.start).1 = none
    ∧ (fsm.start).2.current_state = some i
    ∧ (∀ p ∈ fsm.states, ((fsm.start).2.heap p.2).gen =
        ((fsm.heap p.2).handler).map
          fun h => GenCtx.suspended h.body h.geninit)
    ∧ ∀ s, ((fsm.start).2.heap s).inst = (fsm.heap s).inst := by
  simp only [Fsm.start, h1]
  have hOK := primeList_ok fsm.states
    { heap := fsm.heap, states := fsm.states,
      initial_state := some i, current_state := some i } h2
  have hFr := primeList_frame fsm.states
    { heap := fsm.heap, states := fsm.states,
      initial_state := some i, current_state := some i }
  refine ⟨hOK.1, hFr.2.1, ?_, ?_⟩
  · intro p hp
    rw [hOK.2 p.2]
    have hm : p.2 ∈ fsm.states.map Prod.snd := List.mem_map_of_mem Prod.snd hp
    simp [hm]
  · intro s
    exact (hFr.2.2.2 s).2.2.2

/-- Counterexample to C10 as stated: on the one-state counter machine
(a callable-instance handler, counter starting at 0), one INC dispatch
after the first `start` raises the instance counter to 1, and after a
second `start()` the counter is still 1 — the data accumulated since
the first start is not discarded, because the callable instance is
reused by the freshly created generator. -/
theorem start_restart_counterexample :
    counterH.instInit = 0
    ∧ (fsmC1.heap 0).inst = 1
    ∧ (fsmC2.heap 0).inst = 1 := by
  decide

/-- Witness for the amended C10: the second `start` of the counter
machine succeeds and keeps the instance environment. -/
theorem start_restart_witness :
    (fsmC1.start).1 = none
    ∧ (fsmC2.heap 0).inst = (fsmC1.heap 0).inst :=
  ⟨(start_restart fsmC1 0 rfl (by decide)).1,
   (start_restart fsmC1 0 rfl (by decide)).2.2.2 0⟩

/-- Mapping twice over a handler-body program is mapping the
composition. -/
theorem HProg.map_map {α β γ : Type} (g : α → β) (k : β → γ) (p : HProg α) :
    (p.map g).map k = p.map fun a => k (g a) := by
  induction p <;> simp [HProg.map, *]

/-- Claim C8: each failing `add_state` call raises the exception of the
first violated check — ValueError (spec ConfigurationError) for a
non-initial state with no `from_states` entry, TypeError (spec
TypeConfigurationError) for a non-State entry, KeyError (spec
DuplicateStateError) for an already-registered name, RuntimeError (spec
MultipleInitialStatesError) for a second initial state — and every
failing call returns the machine exactly as it was: registry,
`initial_state`, `current_state` and all state objects unchanged. -/
theorem add_state_errors {σ E : Type} (fsm : Fsm σ E) (s : StateId)
    (fr : List FromEntry) (hf : Option (Handler σ E)) (ini : Bool) :
    (∀ e f2, fsm.add_state s fr hf ini = (some e, f2) → f2 = fsm)
    ∧ ((ini = false ∧ fr = []) →
        fsm.add_state s fr hf ini = (some .valueError, fsm))
    ∧ (¬(ini = false ∧ fr = []) → fr.all FromEntry.isSt = false →
        fsm.add_state s fr hf ini = (some .typeError, fsm))
    ∧ (¬(ini = false ∧ fr = []) → fr.all FromEntry.isSt = true →
        (fsm.states.lookup (fsm.heap s).name).isSome = true →
        fsm.add_state s fr hf ini = (some .keyError, fsm))
    ∧ (¬(ini = false ∧ fr = []) → fr.all FromEntry.isSt = true →
        (fsm.states.lookup (fsm.heap s).name).isSome = false →
        ini = true → fsm.initial_state.isSome = true →
        fsm.add_state s fr hf ini = (some .runtimeError, fsm)) := by
  refine ⟨?_, ?_, ?_, ?_, ?_⟩
  · intro e f2 heq
    unfold Fsm.add_state at heq
    split_ifs at heq <;> simp only [Prod.mk.injEq] at heq <;>
      first
        | exact heq.2.symm
        | exact absurd heq.1 (by simp)
  · intro h
    simp [Fsm.add_state, h]
  · intro h1 h2
    simp [Fsm.add_state, h1, h2]
  · intro h1 h2 h3
    simp [Fsm.add_state, h1, h2, h3]
  · intro h1 h2 h3 h4 h5
    simp [Fsm.add_state, h1, h2, h3, h4, h5]

/-- Witness for C8: registering a second state object carrying the
already-registered name fails with KeyError and returns the machine
unchanged. -/
theorem add_state_errors_witness :
    fsmW.add_state 1 [FromEntry.st 0] none false = (some PyErr.keyError, fsmW) :=
  (add_state_errors fsmW 1 [FromEntry.st 0] none false).2.2.2.1
    (by decide) (by decide) (by decide)

/-- Claim C9: for a plain per-event function `f`, the
`state_handler`-decorated form and the hand-written generator whose
explicit suspend loop calls `f` on each received event are the same
handler, and registering either through the one uniform `add_state`
yields machines with identical behaviour on every event sequence. -/
theorem decorator_equiv {σ E : Type} (f : E → HProg PUnit) (g0 : σ) :
    state_handler (liftPlain f) g0 = handWrittenLoop f g0
    ∧ ∀ (fsm : Fsm σ E) (s : StateId) (fr : List FromEntry) (ini : Bool)
        (evs : List E),
        Fsm.runEvents
          ((fsm.add_state s fr (some (state_handler (liftPlain f) g0))
            ini).2.start).2 evs
        = Fsm.runEvents
            ((fsm.add_state s fr (some (handWrittenLoop f g0))
              ini).2.start).2 evs := by
  have hb : state_handler (liftPlain f) g0 = handWrittenLoop f g0 := by
    unfold state_handler handWrittenLoop liftPlain
    simp only [Handler.mk.injEq]
    refine ⟨trivial, trivial, ?_⟩
    funext ev g i
    rw [HProg.map_map]
  exact ⟨hb, fun fsm s fr ini evs => by rw [hb]⟩

/-- A registered pair makes the registry lookup of its name succeed. -/
theorem lookup_isSome_of_mem {n : String} {s : StateId}
    {l : List (String × StateId)} (h : (n, s) ∈ l) :
    (l.lookup n).isSome = true := by
  induction l with
  | nil => simp at h
  | cons p t ih =>
    rcases p with ⟨k, b⟩
    rcases List.mem_cons.mp h with h1 | h2
    · rcases Prod.mk.injEq .. ▸ h1 with ⟨rfl, rfl⟩
      simp [List.lookup]
    · by_cases hk : n = k
      · subst hk
        simp [List.lookup]
      · have hb : (n == k) = false := beq_eq_false_iff_ne.mpr hk
        simp only [List.lookup, hb]
        exact ih h2

/-- With distinct registered names, the lookup of a registered pair's
name returns exactly its state. -/
theorem lookup_eq_of_mem_nodup {n : String} {c : StateId}
    {l : List (String × StateId)} (hm : (n, c) ∈ l)
    (hn : (l.map Prod.fst).Nodup) : l.lookup n = some c := by
  induction l with
  | nil => simp at hm
  | cons p t ih =>
    rcases p with ⟨k, b⟩
    have hkt : k ∉ t.map Prod.fst := (List.nodup_cons.mp hn).1
    rcases List.mem_cons.mp hm with h1 | h2
    · rcases Prod.mk.injEq .. ▸ h1 with ⟨rfl, rfl⟩
      simp [List.lookup]
    · by_cases hk : n = k
      · subst hk
        exact absurd (List.mem_map.mpr ⟨(n, c), h2, rfl⟩) hkt
      · have hb : (n == k) = false := beq_eq_false_iff_ne.mpr hk
        simp only [List.lookup, hb]
        exact ih h2 (List.nodup_cons.mp hn).2

/-- The registry invariant holds for a fresh machine over a fresh world
of named state objects. -/
theorem fsmInv_init {σ E : Type} [Inhabited σ] (names : StateId → String) :
    FsmInv (Fsm.init names : Fsm σ E) := by
  refine ⟨?_, ?_, ?_, ?_, ?_⟩ <;> simp [Fsm.init]

/-- The registry invariant only depends on the registry, the current
and initial states, and each object's name and `from_states`. -/
theorem fsmInv_of_eq {σ E : Type} (f g : Fsm σ E)
    (hs : g.states = f.states) (hc : g.current_state = f.current_state)
    (hi : g.initial_state = f.initial_state)
    (hn : ∀ s, (g.heap s).name = (f.heap s).name)
    (hf : ∀ s, (g.heap s).from_states = (f.heap s).from_states)
    (h : FsmInv f) : FsmInv g := by
  refine ⟨?_, ?_, ?_, ?_, ?_⟩
  · intro p hp
    rw [hn p.2]
    exact h.regName p (hs ▸ hp)
  · rw [hs]
    exact h.regNodup
  · intro t ht
    rw [hf t] at ht
    obtain ⟨n, hmem⟩ := h.fromReg t ht
    exact ⟨n, hs ▸ hmem⟩
  · intro c hc'
    rw [hc] at hc'
    rw [hs, hn c]
    exact h.curReg c hc'
  · intro i hi'
    rw [hi] at hi'
    rw [hs, hn i]
    exact h.initReg i hi'

/-- `setGenInst` changes nothing but the generator attribute and the
captured environment of its target. -/
theorem setGenInst_fields {σ E : Type} (fsm : Fsm σ E) (s : StateId)
    (g : Option (GenCtx σ E)) (v : σ) (j : StateId) :
    ((fsm.setGenInst s g v).heap j).name = (fsm.heap j).name
    ∧ ((fsm.setGenInst s g v).heap j).from_states =
        (fsm.heap j).from_states := by
  by_cases h : j = s <;> simp [Fsm.setGenInst, h]

/-- A transition request preserves the registry invariant: it can only
succeed towards a state whose `from_states` is non-empty, and only
`add_state` makes a `from_states` non-empty, registering the state. -/
theorem fsmInv_transition {σ E : Type} (fsm : Fsm σ E) (t : StateId)
    (h : FsmInv fsm) : FsmInv (fsm.transition_to t).2 := by
  unfold Fsm.transition_to
  cases hc : fsm.current_state with
  | none => exact h
  | some c =>
    simp only
    by_cases hm : c ∈ (fsm.heap t).from_states
    · rw [if_pos hm]
      refine ⟨h.regName, h.regNodup, h.fromReg, ?_, h.initReg⟩
      intro c' hc'
      obtain rfl : t = c' := by simpa using hc'
      obtain ⟨n, hnmem⟩ := h.fromReg t (List.ne_nil_of_mem hm)
      have hname := h.regName (n, t) hnmem
      show ((fsm.heap t).name, t) ∈ fsm.states
      rw [hname]
      exact hnmem
    · rw [if_neg hm]
      exact h

/-- Running a handler body preserves the registry invariant. -/
theorem fsmInv_runProg {σ E α : Type} (p : HProg α) (fsm : Fsm σ E)
    (h : FsmInv fsm) : FsmInv (Fsm.runProg fsm p).2 := by
  induction p generalizing fsm with
  | ret a => exact h
  | raiseE e => exact h
  | transition t k ih =>
    have h' := fsmInv_transition fsm t h
    unfold Fsm.runProg
    rcases ht : fsm.transition_to t with ⟨r, f2⟩
    rw [ht] at h'
    cases r with
    | none => exact ih f2 h'
    | some e => exact h'

/-- The priming loop preserves the registry invariant. -/
theorem fsmInv_primeList {σ E : Type} (L : List (String × StateId))
    (fsm : Fsm σ E) (h : FsmInv fsm) : FsmInv (Fsm.primeList fsm L).2 := by
  have hFr := primeList_frame L fsm
  exact fsmInv_of_eq fsm (Fsm.primeList fsm L).2 hFr.1 hFr.2.1 hFr.2.2.1
    (fun s => (hFr.2.2.2 s).1) (fun s => (hFr.2.2.2 s).2.1) h

/-- `start` preserves the registry invariant. -/
theorem fsmInv_start {σ E : Type} (fsm : Fsm σ E) (h : FsmInv fsm) :
    FsmInv (fsm.start).2 := by
  unfold Fsm.start
  cases hi : fsm.initial_state with
  | none => exact h
  | some i =>
    simp only
    apply fsmInv_primeList
    refine ⟨h.regName, h.regNodup, h.fromReg, ?_, ?_⟩
    · intro c hc'
      obtain rfl : i = c := by simpa using hc'
      exact h.initReg i hi
    · intro j hj
      obtain rfl : i = j := by simpa using hj
      exact h.initReg i hi

/-- `dispatch_event` preserves the registry invariant. -/
theorem fsmInv_dispatch {σ E : Type} (fsm : Fsm σ E) (e : E)
    (h : FsmInv fsm) : FsmInv (fsm.dispatch_event e).2 := by
  unfold Fsm.dispatch_event
  cases hc : fsm.current_state with
  | none => exact h
  | some cur =>
    simp only
    cases hl : fsm.states.lookup (fsm.heap cur).name with
    | none => exact h
    | some sid =>
      simp only
      cases hg : (fsm.heap sid).gen with
      | none => exact h
      | some ctx =>
        cases ctx with
        | dead => exact h
        | suspended body loc =>
          simp only
          have hrp := fsmInv_runProg (body e loc (fsm.heap sid).inst) fsm h
          have hFr := runProg_frame (body e loc (fsm.heap sid).inst) fsm
          rcases hr : Fsm.runProg fsm (body e loc (fsm.heap sid).inst)
            with ⟨r, f2⟩
          rw [hr] at hrp hFr
          cases r with
          | ok gi =>
            simp only
            exact fsmInv_of_eq f2 _ rfl rfl rfl
              (fun j => (setGenInst_fields f2 sid _ _ j).1)
              (fun j => (setGenInst_fields f2 sid _ _ j).2) hrp
          | error e' =>
            simp only
            exact fsmInv_of_eq f2 _ rfl rfl rfl
              (fun j => (setGen_fields f2 sid _ j).1)
              (fun j => (setGen_fields f2 sid _ j).2.1) hrp

/-- Registering a fresh name preserves the registry invariant, whether
or not the new state is made initial and current: `N` is the heap after
the registration, which keeps every name and touches no `from_states`
but the registered state's. -/
theorem fsmInv_register {σ E : Type} (fsm : Fsm σ E) (s : StateId)
    (N : StateId → StateObj σ E)
    (hname : ∀ j, (N j).name = (fsm.heap j).name)
    (hfrom : ∀ j, j ≠ s → (N j).from_states = (fsm.heap j).from_states)
    (hnew : (fsm.states.lookup (fsm.heap s).name).isSome = false)
    (h : FsmInv fsm) :
    FsmInv { heap := N, states := fsm.states ++ [((fsm.heap s).name, s)],
             initial_state := fsm.initial_state,
             current_state := fsm.current_state }
    ∧ FsmInv { heap := N, states := fsm.states ++ [((fsm.heap s).name, s)],
               initial_state := some s, current_state := some s } := by
  have hnotin : (fsm.heap s).name ∉ fsm.states.map Prod.fst := by
    intro hmem
    obtain ⟨p, hp, hp1⟩ := List.mem_map.mp hmem
    have hp' : (p.1, p.2) ∈ fsm.states := by
      rw [Prod.mk.eta]
      exact hp
    rw [hp1] at hp'
    rw [lookup_isSome_of_mem hp'] at hnew
    simp at hnew
  have hRegName : ∀ p ∈ fsm.states ++ [((fsm.heap s).name, s)],
      (N p.2).name = p.1 := by
    intro p hp
    rcases List.mem_append.mp hp with hp | hp
    · rw [hname p.2]
      exact h.regName p hp
    · have hps : p = ((fsm.heap s).name, s) := by simpa using hp
      rw [hps, hname s]
  have hNodup :
      ((fsm.states ++ [((fsm.heap s).name, s)]).map Prod.fst).Nodup := by
    rw [List.map_append]
    refine List.Nodup.append h.regNodup (List.nodup_singleton _) ?_
    intro x hx hx2
    have hxn : x = (fsm.heap s).name := by simpa using hx2
    subst hxn
    exact hnotin hx
  have hFromReg : ∀ t, (N t).from_states ≠ [] →
      ∃ n, (n, t) ∈ fsm.states ++ [((fsm.heap s).name, s)] := by
    intro t ht
    by_cases hts : t = s
    · subst hts
      exact ⟨(fsm.heap t).name, List.mem_append.mpr (Or.inr (by simp))⟩
    · rw [hfrom t hts] at ht
      obtain ⟨n, hn⟩ := h.fromReg t ht
      exact ⟨n, List.mem_append.mpr (Or.inl hn)⟩
  have hOld : ∀ c, ((fsm.heap c).name, c) ∈ fsm.states →
      ((N c).name, c) ∈ fsm.states ++ [((fsm.heap s).name, s)] := by
    intro c hc
    rw [hname c]
    exact List.mem_append.mpr (Or.inl hc)
  constructor
  · exact ⟨hRegName, hNodup, hFromReg,
      fun c hc => hOld c (h.curReg c hc),
      fun i hi => hOld i (h.initReg i hi)⟩
  · refine ⟨hRegName, hNodup, hFromReg, ?_, ?_⟩
    · intro c hc
      obtain rfl : s = c := by simpa using hc
      rw [hname s]
      exact List.mem_append.mpr (Or.inr (by simp))
    · intro i hi
      obtain rfl : s = i := by simpa using hi
      rw [hname s]
      exact List.mem_append.mpr (Or.inr (by simp))

/-- `add_state` preserves the registry invariant. -/
theorem fsmInv_add {σ E : Type} (fsm : Fsm σ E) (s : StateId)
    (fr : List FromEntry) (hf : Option (Handler σ E)) (ini : Bool)
    (h : FsmInv fsm) : FsmInv (fsm.add_state s fr hf ini).2 := by
  by_cases h1 : ini = false ∧ fr = []
  · simp only [Fsm.add_state, if_pos h1]
    exact h
  by_cases h2 : ¬ fr.all FromEntry.isSt = true
  · simp only [Fsm.add_state, if_neg h1, if_pos h2]
    exact h
  by_cases h3 : (fsm.states.lookup (fsm.heap s).name).isSome = true
  · simp only [Fsm.add_state, if_neg h1, if_neg h2, if_pos h3]
    exact h
  by_cases h4 : ini = true ∧ fsm.initial_state.isSome = true
  · simp only [Fsm.add_state, if_neg h1, if_neg h2, if_neg h3, if_pos h4]
    exact h
  by_cases h5 : ini = true
  · simp only [Fsm.add_state, if_neg h1, if_neg h2, if_neg h3, if_neg h4,
      if_pos h5]
    refine (fsmInv_register fsm s _ ?_ ?_ ?_ h).2
    · intro j
      by_cases hj : j = s <;> simp [hj]
    · intro j hj
      simp [hj]
    · exact Bool.eq_false_iff.mpr h3
  · simp only [Fsm.add_state, if_neg h1, if_neg h2, if_neg h3, if_neg h4,
      if_neg h5]
    refine (fsmInv_register fsm s _ ?_ ?_ ?_ h).1
    · intro j
      by_cases hj : j = s <;> simp [hj]
    · intro j hj
      simp [hj]
    · exact Bool.eq_false_iff.mpr h3

/-- Every machine reachable through the public interface satisfies the
registry invariant. -/
theorem fsmReachable_inv {σ E : Type} [Inhabited σ]
    (names : StateId → String) (fsm : Fsm σ E)
    (h : FsmReachable names fsm) : FsmInv fsm := by
  induction h with
  | init => exact fsmInv_init names
  | add_state f s fr hf ini _ ih => exact fsmInv_add f s fr hf ini ih
  | start f _ ih => exact fsmInv_start f ih
  | transition f t _ ih => exact fsmInv_transition f t ih
  | dispatch f e _ ih => exact fsmInv_dispatch f e ih

/-- Claim C4: on every machine reachable through any sequence of
public-interface calls — handlers free to request a transition towards
any state object whatsoever — whenever `current_state` is set it is a
registered state: the registry maps its name back to it.  (Before the
initial state is registered, `current_state` is `None` and the claim is
vacuous.) -/
theorem current_state_registered {σ E : Type} [Inhabited σ]
    (names : StateId → String) (fsm : Fsm σ E)
    (h : FsmReachable names fsm) (c : StateId)
    (hc : fsm.current_state = some c) :
    fsm.states.lookup (fsm.heap c).name = some c := by
  have hI := fsmReachable_inv names fsm h
  exact lookup_eq_of_mem_nodup (hI.curReg c hc) hI.regNodup

/-- Witness for C4: the machine where the initial state was just
registered is reachable, its current state is state 0, and the registry
maps state 0's name back to it. -/
theorem current_state_registered_witness :
    fsmW.current_state = some 0
    ∧ fsmW.states.lookup (fsmW.heap 0).name = some 0 := by
  have hr : FsmReachable (fun _ => "S") fsmW :=
    FsmReachable.add_state _ 0 [] none true FsmReachable.init
  exact ⟨by decide, current_state_registered (fun _ => "S") fsmW hr 0 (by decide)⟩
